import Mathlib

/-!
A verification development for the `conduit-hyper` crate (`src/lib.rs`), a
compatibility layer serving a synchronous `conduit::Handler` behind the
asynchronous `hyper` transport.

The embedding is shallow: the pure content of each Rust function is
translated into an executable Lean definition.  Machine integers are
modelled as `Nat` with explicit `% 2 ^ w` where the Rust code truncates
(the `as u16` cast in `good_response`).  Behaviour of external crates
(`http`, `hyper`, `conduit`) is modelled at the boundary, following the
documentation the repository itself relies on:

* a `http::HeaderMap` is modelled as the ordered list of raw header lines,
  each line a key paired with `some text` when `HeaderValue::to_str`
  succeeds and `none` when the value is not valid UTF-8 text;
* `HeaderMap::keys()` yields the key of every raw line, once per line: the
  doc comment on `Parts::all` records that, at the pinned version of the
  `http` crate, keys with multiple values are duplicated
  (hyperium/http issue 199);
* `StatusCode::from_u16` accepts exactly the numeric range 100..=599 that
  the specification states is enforced before a status reaches the
  transport.
-/

namespace ConduitHyper

/-- A header collection (`http::HeaderMap`), modelled as the ordered list of
raw header lines.  A line pairs a key with `some s` when the value decodes
as text and `none` when it is not valid UTF-8 text. -/
abbrev HeaderMap := List (String × Option String)

/-- `HeaderMap::get_all(key)`: the values of every raw line whose key
matches, in their original order. -/
def get_all (m : HeaderMap) (key : String) : List (Option String) :=
  (m.filter (fun e => e.1 == key)).map (fun e => e.2)

/-- `HeaderMap::contains_key(key)`. -/
def contains_key (m : HeaderMap) (key : String) : Bool :=
  m.any (fun e => e.1 == key)

/-- `HeaderMap::keys()` at the pinned `http` crate version: one key per raw
header line, in order, so a key with several values appears several times
(hyperium/http issue 199, referenced by the doc comment on `Parts::all`). -/
def keys (m : HeaderMap) : List String :=
  m.map (fun e => e.1)

namespace Parts

/-- `Parts::find` (`src/lib.rs` lines 32-44): collect all values for the
key, replacing an undecodable value with the empty string, and return
`none` when the collected list is empty. -/
def find (m : HeaderMap) (key : String) : Option (List String) :=
  let values := (get_all m key).map (fun v => v.getD "")
  if values.isEmpty then none else some values

/-- `Parts::has` (`src/lib.rs` lines 46-48). -/
def has (m : HeaderMap) (key : String) : Bool :=
  contains_key m key

/-- `Parts::all` (`src/lib.rs` lines 54-63): one entry per element of
`keys`, pairing the key with `find key`.  The `.expect` in the source can
only fire for a key with no line, which never happens for a key drawn from
`keys`; the unreachable branch is rendered as `.getD []`. -/
def all (m : HeaderMap) : List (String × List String) :=
  (keys m).map (fun key => (key, (find m key).getD []))

end Parts

-- Occurrences of a key: the raw lines carrying it, in order.
def linesFor (m : HeaderMap) (key : String) : List (String × Option String) :=
  m.filter (fun e => e.1 == key)

/-- C4: `find(key)` is absent exactly when the key occurs on no raw line;
otherwise it returns the non-empty list of the key's values in original
order, one entry per occurrence, with an undecodable value rendered as the
empty string. -/
theorem find_characterization (m : HeaderMap) (key : String) :
    (Parts.find m key = none ↔ linesFor m key = []) ∧
    (∀ vs, Parts.find m key = some vs →
      vs ≠ [] ∧
      vs = (linesFor m key).map (fun e => e.2.getD "") ∧
      vs.length = (linesFor m key).length) := by
  constructor
  · unfold Parts.find get_all linesFor
    by_cases he : (m.filter (fun e => e.1 == key)) = []
    · simp [he]
    · simp [he, List.isEmpty_iff]
  · intro vs h
    simp only [Parts.find, get_all, linesFor] at h ⊢
    by_cases he : ((m.filter (fun e => e.1 == key)).map (fun e => e.2)).map
        (fun v => v.getD "") = []
    · simp [he, List.isEmpty_iff] at h
    · simp only [List.isEmpty_iff, he, if_false, Option.some.injEq] at h
      subst h
      refine ⟨he, ?_, ?_⟩
      · simp [List.map_map]
      · simp

/-- Witness for C4 on a concrete collection with a repeated key and an
undecodable value. -/
theorem find_characterization_witness :
    Parts.find [("x", some "a"), ("y", some "c"), ("x", none)] "x" =
      some ["a", ""] ∧
    Parts.find [("x", some "a"), ("y", some "c"), ("x", none)] "z" = none := by
  have h := find_characterization [("x", some "a"), ("y", some "c"), ("x", none)] "x"
  have h2 := find_characterization [("x", some "a"), ("y", some "c"), ("x", none)] "z"
  refine ⟨by rfl, ?_⟩
  exact (h2.1).mpr (by rfl)

/-- C5: `has(key)` is true exactly when `find(key)` is present. -/
theorem has_iff_find_isSome (m : HeaderMap) (key : String) :
    Parts.has m key = true ↔ (Parts.find m key).isSome := by
  simp only [Parts.has, contains_key, Parts.find, get_all, List.any_eq_true]
  by_cases he : ((m.filter (fun e => e.1 == key)).map (fun e => e.2)).map
      (fun v => v.getD "") = []
  · simp only [List.isEmpty_iff, he, if_pos, Option.isSome_none]
    simp only [List.map_eq_nil_iff, List.filter_eq_nil_iff] at he
    constructor
    · rintro ⟨e, hmem, hkey⟩
      exact absurd (he e hmem) (by simp [hkey])
    · intro hfalse
      exact absurd hfalse (by simp)
  · simp only [List.isEmpty_iff, he, if_neg, Option.isSome_some]
    simp only [List.map_eq_nil_iff, List.filter_eq_nil_iff, not_forall] at he
    obtain ⟨e, hmem, hkey⟩ := he
    simp only [Decidable.not_not] at hkey
    exact iff_of_true ⟨e, hmem, hkey⟩ rfl

-- A collection in which the key x-test occurs on two raw header lines.
def duplicateKeyMap : HeaderMap := [("x-test", some "a"), ("x-test", some "b")]

/-- C2 failing input: on a collection where `x-test` occurs on two raw
lines, `all()` enumerates the key twice (once per raw line), each time with
the full grouped value list, instead of enumerating the distinct key once.
This matches the bug the doc comment on `Parts::all` records
(hyperium/http issue 199). -/
theorem all_duplicates_repeated_key :
    Parts.all duplicateKeyMap =
      [("x-test", ["a", "b"]), ("x-test", ["a", "b"])] ∧
    (Parts.all duplicateKeyMap).length ≠ 1 := by
  exact ⟨rfl, by decide⟩

/-- The `conduit::Method` enumeration: nine dedicated variants plus `Other`
carrying the raw verb string. -/
inductive ConduitMethod where
  | Get
  | Post
  | Put
  | Delete
  | Head
  | Options
  | Patch
  | Trace
  | Connect
  | Other (verb : String)
deriving DecidableEq, Repr

/-- `ConduitRequest::method` (`src/lib.rs` lines 92-105).  A
`hyper::Method` is its verb string; equality with the nine named constants
is equality with their verb strings, and `Method::to_string()` returns the
raw verb string. -/
def ConduitRequest.method (verb : String) : ConduitMethod :=
  match verb with
  | "CONNECT" => ConduitMethod.Connect
  | "DELETE" => ConduitMethod.Delete
  | "GET" => ConduitMethod.Get
  | "HEAD" => ConduitMethod.Head
  | "OPTIONS" => ConduitMethod.Options
  | "PATCH" => ConduitMethod.Patch
  | "POST" => ConduitMethod.Post
  | "PUT" => ConduitMethod.Put
  | "TRACE" => ConduitMethod.Trace
  | other => ConduitMethod.Other other

-- The nine standard verb strings matched by name in the source.
def standardVerbs : List String :=
  ["GET", "POST", "PUT", "DELETE", "HEAD", "OPTIONS", "PATCH", "TRACE", "CONNECT"]

/-- C6: each of the nine standard verbs maps to its dedicated variant, and
every other verb string maps to `Other` carrying exactly that string. -/
theorem method_mapping :
    (ConduitRequest.method "GET" = ConduitMethod.Get ∧
     ConduitRequest.method "POST" = ConduitMethod.Post ∧
     ConduitRequest.method "PUT" = ConduitMethod.Put ∧
     ConduitRequest.method "DELETE" = ConduitMethod.Delete ∧
     ConduitRequest.method "HEAD" = ConduitMethod.Head ∧
     ConduitRequest.method "OPTIONS" = ConduitMethod.Options ∧
     ConduitRequest.method "PATCH" = ConduitMethod.Patch ∧
     ConduitRequest.method "TRACE" = ConduitMethod.Trace ∧
     ConduitRequest.method "CONNECT" = ConduitMethod.Connect) ∧
    ∀ verb : String, verb ∉ standardVerbs →
      ConduitRequest.method verb = ConduitMethod.Other verb := by
  refine ⟨⟨rfl, rfl, rfl, rfl, rfl, rfl, rfl, rfl, rfl⟩, ?_⟩
  intro verb hverb
  simp only [standardVerbs, List.mem_cons, List.not_mem_nil, or_false] at hverb
  push_neg at hverb
  obtain ⟨h1, h2, h3, h4, h5, h6, h7, h8, h9⟩ := hverb
  unfold ConduitRequest.method
  split
  · exact absurd rfl h9
  · exact absurd rfl h4
  · exact absurd rfl h1
  · exact absurd rfl h5
  · exact absurd rfl h6
  · exact absurd rfl h7
  · exact absurd rfl h2
  · exact absurd rfl h3
  · exact absurd rfl h8
  · rfl

/-- Witness for C6 at the non-standard verb BREW. -/
theorem method_mapping_witness :
    ConduitRequest.method "BREW" = ConduitMethod.Other "BREW" :=
  method_mapping.2 "BREW" (by decide)

/-- The `http::Version` values the pinned crate exposes, exactly the four
arms of the exhaustive match in `ConduitRequest::http_version`. -/
inductive HttpVersion where
  | http09
  | http10
  | http11
  | http2
deriving DecidableEq, Repr

/-- A `semver::Version`: major, minor, patch plus pre-release and build
identifier lists. -/
structure SemverVersion where
  major : Nat
  minor : Nat
  patch : Nat
  pre : List String
  build : List String
deriving DecidableEq, Repr

/-- The `version` helper (`src/lib.rs` lines 289-297). -/
def version (major minor : Nat) : SemverVersion :=
  { major := major, minor := minor, patch := 0, pre := [], build := [] }

/-- `ConduitRequest::http_version` (`src/lib.rs` lines 79-86). -/
def ConduitRequest.http_version : HttpVersion → SemverVersion
  | HttpVersion.http09 => version 0 9
  | HttpVersion.http10 => version 1 0
  | HttpVersion.http11 => version 1 1
  | HttpVersion.http2 => version 2 0

/-- C7: the reported HTTP version is the semantic triple (0,9,0) for 0.9,
(1,0,0) for 1.0, (1,1,0) for 1.1 and (2,0,0) for 2.x, with patch zero and
pre-release and build components empty in every case. -/
theorem http_version_mapping :
    ConduitRequest.http_version HttpVersion.http09 =
      { major := 0, minor := 9, patch := 0, pre := [], build := [] } ∧
    ConduitRequest.http_version HttpVersion.http10 =
      { major := 1, minor := 0, patch := 0, pre := [], build := [] } ∧
    ConduitRequest.http_version HttpVersion.http11 =
      { major := 1, minor := 1, patch := 0, pre := [], build := [] } ∧
    ConduitRequest.http_version HttpVersion.http2 =
      { major := 2, minor := 0, patch := 0, pre := [], build := [] } :=
  ⟨rfl, rfl, rfl, rfl⟩

/-- `std::io::Cursor` over the buffered body bytes: the full contents plus
a read position. -/
structure Cursor where
  contents : List Nat
  pos : Nat
deriving DecidableEq, Repr

/-- `Cursor::set_position`. -/
def Cursor.set_position (c : Cursor) (p : Nat) : Cursor :=
  { c with pos := p }

/-- `ConduitRequest::body` (`src/lib.rs` lines 159-162): reset the cursor
to position zero and hand out the readable view. -/
def ConduitRequest.body (c : Cursor) : Cursor :=
  c.set_position 0

/-- One `Read::read` call on a `Cursor`: return up to `n` bytes starting at
the current position (clamped to the contents length) and advance the
position by the number of bytes returned. -/
def Cursor.read (c : Cursor) (n : Nat) : List Nat × Cursor :=
  let start := min c.pos c.contents.length
  let bytes := (c.contents.drop start).take n
  (bytes, { c with pos := start + bytes.length })

/-- A sequence of reads of the given sizes, keeping only the final cursor
state. -/
def Cursor.readMany (c : Cursor) : List Nat → Cursor
  | [] => c
  | n :: ns => ((c.read n).2).readMany ns

/-- Reading to the end from the current position (`read_to_end`). -/
def Cursor.readAll (c : Cursor) : List Nat :=
  c.contents.drop (min c.pos c.contents.length)

-- Reads never change the buffered contents, only the position.
theorem readMany_contents (ns : List Nat) :
    ∀ c : Cursor, (c.readMany ns).contents = c.contents := by
  induction ns with
  | nil => intro c; rfl
  | cons n ns ih => intro c; simpa [Cursor.readMany, Cursor.read] using ih _

/-- C8: invoking the body accessor resets the cursor to position zero, so
reading to the end after any invocation yields the complete body, and two
invocations separated by an arbitrary sequence of reads both yield the
complete body bytes from the start. -/
theorem body_rereadable (c : Cursor) (ns ms : List Nat) :
    (ConduitRequest.body c).pos = 0 ∧
    (ConduitRequest.body c).readAll = c.contents ∧
    (ConduitRequest.body ((ConduitRequest.body c).readMany ns)).readAll =
      c.contents ∧
    (ConduitRequest.body
        ((ConduitRequest.body
            ((ConduitRequest.body c).readMany ns)).readMany ms)).readAll =
      c.contents := by
  refine ⟨rfl, ?_, ?_, ?_⟩ <;>
    simp [ConduitRequest.body, Cursor.set_position, Cursor.readAll,
      readMany_contents]

/-- A `conduit::Response` as the handler returns it: the numeric status
(the `u32` in `status.0`), the header map iterated as an association list
of key to ordered value list, and the outcome of streaming the body writer
into a fresh buffer (`write_body`): the bytes written, or an error. -/
structure HandlerResponse where
  status : Nat
  headers : List (String × List String)
  bodyWriter : Except Unit (List Nat)

/-- A `hyper::Response<Body>` as handed to the transport: status, ordered
wire header lines (a key may repeat), and body bytes. -/
structure HttpResponse where
  status : Nat
  headers : List (String × String)
  body : List Nat
deriving DecidableEq, Repr

-- The bytes of the fixed fallback body (all ASCII).
def internalServerErrorBody : List Nat :=
  "Internal Server Error".data.map Char.toNat

/-- `error_response` (`src/lib.rs` lines 280-287): log the message (a
server-side effect outside this model) and return the fixed status 500
response with body Internal Server Error and no custom headers.  The
construction is infallible and independent of the message. -/
def error_response (_message : String) : HttpResponse :=
  { status := 500, headers := [], body := internalServerErrorBody }

/-- `http::StatusCode::from_u16`, modelled from the spec for the external
`http` crate: a `u16` is a valid status exactly when it lies in 100..=599,
the range the spec states is enforced before a status reaches the
transport. -/
def StatusCode.from_u16 (s : Nat) : Option Nat :=
  if 100 ≤ s ∧ s ≤ 599 then some s else none

/-- The header lines emitted by the nested loops of `good_response`
(`src/lib.rs` lines 268-272): one wire line per value, keys in map order,
values in their original order. -/
def wireHeaderLines (headers : List (String × List String)) :
    List (String × String) :=
  headers.flatMap (fun kv => kv.2.map (fun v => (kv.1, v)))

/-- `good_response` (`src/lib.rs` lines 255-277).  `validHeader` stands for
the external `http` crate check that a header name/value pair is
representable; `Response::builder().body` fails when any added header was
invalid, which the source downgrades to `error_response`.  The status is
first cast `as u16` (truncation modulo 2^16) and only then validated by
`StatusCode::from_u16`. -/
def good_response (validHeader : String → String → Bool)
    (r : HandlerResponse) : HttpResponse :=
  match r.bodyWriter with
  | Except.error _ => error_response "Error writing body"
  | Except.ok body =>
    match StatusCode.from_u16 (r.status % 65536) with
    | none => error_response "invalid status code"
    | some status =>
      let lines := wireHeaderLines r.headers
      if lines.all (fun kv => validHeader kv.1 kv.2) then
        { status := status, headers := lines, body := body }
      else
        error_response "http error building response"

/-- The observable outcome of one handler invocation inside the
crash-isolation boundary of `Service::call` (`src/lib.rs` lines 211-235):
the handler panics (caught by `catch_unwind`), reports an error with a
description, or returns a response. -/
inductive HandlerOutcome where
  | panics
  | failure (description : String)
  | success (response : HandlerResponse)

/-- The response `Service::call` produces for one buffered request, as a
function of the handler outcome: a panic and a reported error map to
`error_response`, a returned response goes through `good_response`. -/
def Service.call (validHeader : String → String → Bool) :
    HandlerOutcome → HttpResponse
  | HandlerOutcome.panics => error_response "Application handler paniced"
  | HandlerOutcome.failure e => error_response e
  | HandlerOutcome.success r => good_response validHeader r

/-- The failure paths of `Service::call`: handler crash, handler-reported
error, body write failure, invalid status after the `as u16` cast, or an
unrepresentable header. -/
def isFailurePath (validHeader : String → String → Bool) :
    HandlerOutcome → Bool
  | HandlerOutcome.panics => true
  | HandlerOutcome.failure _ => true
  | HandlerOutcome.success r =>
    match r.bodyWriter with
    | Except.error _ => true
    | Except.ok _ =>
      match StatusCode.from_u16 (r.status % 65536) with
      | none => true
      | some _ =>
        !(wireHeaderLines r.headers).all (fun kv => validHeader kv.1 kv.2)

/-- C1: every handler outcome yields exactly one response, and on every
failure path (crash, reported error, or response-construction failure) that
response is exactly status 500 with the fixed body Internal Server Error
and no headers, so no failure detail reaches the client. -/
theorem one_response_and_opaque_failures
    (validHeader : String → String → Bool) (o : HandlerOutcome) :
    (∃! resp : HttpResponse, Service.call validHeader o = resp) ∧
    (isFailurePath validHeader o = true →
      Service.call validHeader o =
        { status := 500, headers := [], body := internalServerErrorBody }) := by
  refine ⟨⟨Service.call validHeader o, rfl, fun y hy => hy.symm⟩, ?_⟩
  intro hfail
  cases o with
  | panics => rfl
  | failure e => rfl
  | success r =>
    simp only [Service.call, good_response]
    simp only [isFailurePath] at hfail
    cases hbw : r.bodyWriter with
    | error u => simp [hbw, error_response]
    | ok body =>
      simp only [hbw] at hfail ⊢
      cases hst : StatusCode.from_u16 (r.status % 65536) with
      | none => simp [hst, error_response]
      | some s =>
        simp only [hst, Bool.not_eq_eq_eq_not, Bool.not_true] at hfail ⊢
        simp [hfail, error_response]

/-- Witness for C1 at a crashing handler. -/
theorem one_response_and_opaque_failures_witness :
    Service.call (fun _ _ => true) HandlerOutcome.panics =
      { status := 500, headers := [], body := internalServerErrorBody } :=
  (one_response_and_opaque_failures (fun _ _ => true) HandlerOutcome.panics).2
    rfl

-- A handler response whose u32 status exceeds the u16 range: 65636 = 2^16 + 100.
def overflowStatusResponse : HandlerResponse :=
  { status := 65636, headers := [], bodyWriter := Except.ok [] }

/-- C3 counterexample: the handler status 65636 lies outside 100..=599,
yet the builder hands status 100 (the value truncated by the `as u16`
cast) to the transport instead of falling back to the fixed 500
response. -/
theorem status_range_fallback_counterexample :
    (overflowStatusResponse.status < 100 ∨ 599 < overflowStatusResponse.status) ∧
    (good_response (fun _ _ => true) overflowStatusResponse).status = 100 ∧
    (good_response (fun _ _ => true) overflowStatusResponse).status ≠ 500 := by
  exact ⟨Or.inr (by decide), rfl, by decide⟩

/-- C3 amended: every status the builder hands to the transport lies in
100..=599, and the builder falls back to the fixed 500 response exactly
when the handler status reduced modulo 2^16 (the `as u16` cast) lies
outside that range. -/
theorem status_range_enforced (validHeader : String → String → Bool)
    (r : HandlerResponse) :
    (100 ≤ (good_response validHeader r).status ∧
      (good_response validHeader r).status ≤ 599) ∧
    (¬(100 ≤ r.status % 65536 ∧ r.status % 65536 ≤ 599) →
      good_response validHeader r =
        { status := 500, headers := [], body := internalServerErrorBody }) := by
  constructor
  · unfold good_response
    cases hbw : r.bodyWriter with
    | error u => exact ⟨by simp [error_response], by simp [error_response]⟩
    | ok body =>
      cases hrange : decide (100 ≤ r.status % 65536 ∧ r.status % 65536 ≤ 599) with
      | false =>
        have : StatusCode.from_u16 (r.status % 65536) = none := by
          unfold StatusCode.from_u16
          simp [of_decide_eq_false hrange]
        simp [this, error_response]
      | true =>
        have hr := of_decide_eq_true hrange
        have : StatusCode.from_u16 (r.status % 65536) =
            some (r.status % 65536) := by
          unfold StatusCode.from_u16
          simp [hr]
        simp only [this]
        by_cases hall :
            (wireHeaderLines r.headers).all
              (fun kv => validHeader kv.1 kv.2) = true
        · simpa [hall] using hr
        · simp [hall, error_response]
  · intro hout
    unfold good_response
    cases hbw : r.bodyWriter with
    | error u => rfl
    | ok body =>
      have : StatusCode.from_u16 (r.status % 65536) = none := by
        unfold StatusCode.from_u16
        simp [hout]
      simp [this, error_response]

/-- Witness for C3 at a status that stays invalid after truncation. -/
theorem status_range_enforced_witness :
    good_response (fun _ _ => true)
        { status := 700, headers := [], bodyWriter := Except.ok [] } =
      { status := 500, headers := [], body := internalServerErrorBody } :=
  (status_range_enforced (fun _ _ => true)
      { status := 700, headers := [], bodyWriter := Except.ok [] }).2
    (by decide)

-- Every emitted wire line carries a key of the header map.
theorem mem_wireHeaderLines {headers : List (String × List String)}
    {p : String × String} (hp : p ∈ wireHeaderLines headers) :
    p.1 ∈ headers.map Prod.fst := by
  simp only [wireHeaderLines, List.mem_flatMap] at hp
  obtain ⟨kv, hkv, hmem⟩ := hp
  simp only [List.mem_map] at hmem ⊢
  obtain ⟨v, hv, rfl⟩ := hmem
  exact ⟨kv, hkv, rfl⟩

-- For a map with pairwise-distinct keys, the wire lines carrying one key
-- are exactly the values of that key, in their original order.
theorem wireHeaderLines_filter (headers : List (String × List String))
    (k : String) (vs : List String)
    (hnd : (headers.map Prod.fst).Nodup) (hmem : (k, vs) ∈ headers) :
    ((wireHeaderLines headers).filter (fun kv => kv.1 == k)).map
      (fun kv => kv.2) = vs := by
  induction headers with
  | nil => cases hmem
  | cons head rest ih =>
    obtain ⟨k0, vs0⟩ := head
    simp only [List.map_cons, List.nodup_cons] at hnd
    have hsplit : wireHeaderLines ((k0, vs0) :: rest) =
        vs0.map (fun v => (k0, v)) ++ wireHeaderLines rest := by
      simp [wireHeaderLines]
    rw [hsplit, List.filter_append, List.map_append]
    rcases List.mem_cons.mp hmem with heq | hmem2
    · obtain ⟨hk, hvs⟩ := Prod.mk.injEq .. ▸ heq
      subst hk
      subst hvs
      have hrest :
          (wireHeaderLines rest).filter (fun kv => kv.1 == k) = [] := by
        rw [List.filter_eq_nil_iff]
        intro p hp hkey
        exact hnd.1 (by simpa [eq_of_beq hkey] using mem_wireHeaderLines hp)
      have hown : (vs.map (fun v => (k, v))).filter
          (fun kv => kv.1 == k) = vs.map (fun v => (k, v)) := by
        rw [List.filter_eq_self]
        intro p hp
        simp only [List.mem_map] at hp
        obtain ⟨v, hv, rfl⟩ := hp
        simp
      rw [hrest, hown]
      simp [List.map_map]
    · have hk0 : k0 ≠ k := by
        intro hkk
        exact hnd.1 (hkk ▸ List.mem_map.mpr ⟨(k, vs), hmem2, rfl⟩)
      have hown : (vs0.map (fun v => (k0, v))).filter
          (fun kv => kv.1 == k) = [] := by
        rw [List.filter_eq_nil_iff]
        intro p hp hkey
        simp only [List.mem_map] at hp
        obtain ⟨v, hv, rfl⟩ := hp
        exact hk0 (eq_of_beq hkey)
      rw [hown]
      simpa using ih hnd.2 hmem2

/-- C9: when body write, status and header validation succeed, the builder
emits exactly one wire line per header value, and for a header map with
distinct keys, the lines carrying a given key are that key's values with
their original multiplicity and order. -/
theorem headers_multiplicity_order_preserved
    (validHeader : String → String → Bool) (r : HandlerResponse)
    (body : List Nat) (hbw : r.bodyWriter = Except.ok body)
    (hst : 100 ≤ r.status % 65536 ∧ r.status % 65536 ≤ 599)
    (hv : (wireHeaderLines r.headers).all
      (fun kv => validHeader kv.1 kv.2) = true) :
    (good_response validHeader r).headers = wireHeaderLines r.headers ∧
    ∀ k vs, (r.headers.map Prod.fst).Nodup → (k, vs) ∈ r.headers →
      (((good_response validHeader r).headers.filter
        (fun kv => kv.1 == k)).map (fun kv => kv.2)) = vs := by
  have hu16 : StatusCode.from_u16 (r.status % 65536) =
      some (r.status % 65536) := by
    unfold StatusCode.from_u16
    simp [hst]
  have hgr : (good_response validHeader r).headers =
      wireHeaderLines r.headers := by
    unfold good_response
    simp [hbw, hu16, hv]
  refine ⟨hgr, fun k vs hnd hmem => ?_⟩
  rw [hgr]
  exact wireHeaderLines_filter r.headers k vs hnd hmem

-- The spec scenario: a 404 response carrying X-Test values a then b.
def scenario404 : HandlerResponse :=
  { status := 404, headers := [("X-Test", ["a", "b"])],
    bodyWriter := Except.ok [] }

/-- Witness for C9 on the 404 scenario with two X-Test values. -/
theorem headers_multiplicity_order_preserved_witness :
    (good_response (fun _ _ => true) scenario404).headers =
      [("X-Test", "a"), ("X-Test", "b")] ∧
    (((good_response (fun _ _ => true) scenario404).headers.filter
      (fun kv => kv.1 == "X-Test")).map (fun kv => kv.2)) = ["a", "b"] := by
  have h := headers_multiplicity_order_preserved (fun _ _ => true)
    scenario404 [] rfl (by decide) rfl
  refine ⟨?_, h.2 "X-Test" ["a", "b"] (by decide) (by decide)⟩
  rw [h.1]
  rfl

/-- C10: the wire status is computed by first truncating the handler
status modulo 2^16 (the `as u16` cast) and only then checking validity:
whenever the truncated value lies in 100..=599 it is emitted as is, the
500 fallback fires only when the truncated value is out of range, and in
particular the handler status 65636 (at least 2^16) is emitted as the
truncated status 100 instead of the 500 fallback. -/
theorem status_truncated_before_validity
    (validHeader : String → String → Bool) (r : HandlerResponse)
    (body : List Nat) (hbw : r.bodyWriter = Except.ok body)
    (hv : (wireHeaderLines r.headers).all
      (fun kv => validHeader kv.1 kv.2) = true) :
    (100 ≤ r.status % 65536 ∧ r.status % 65536 ≤ 599 →
      (good_response validHeader r).status = r.status % 65536) ∧
    (¬(100 ≤ r.status % 65536 ∧ r.status % 65536 ≤ 599) →
      (good_response validHeader r).status = 500) ∧
    (2 ^ 16 ≤ overflowStatusResponse.status ∧
      (good_response (fun _ _ => true) overflowStatusResponse).status
        = 100) := by
  refine ⟨?_, ?_, by decide, rfl⟩
  · intro hst
    have hu16 : StatusCode.from_u16 (r.status % 65536) =
        some (r.status % 65536) := by
      unfold StatusCode.from_u16
      simp [hst]
    unfold good_response
    simp [hbw, hu16, hv]
  · intro hst
    have hu16 : StatusCode.from_u16 (r.status % 65536) = none := by
      unfold StatusCode.from_u16
      simp [hst]
    unfold good_response
    simp [hbw, hu16, error_response]

/-- Witness for C10 at the overflowing status 65636. -/
theorem status_truncated_before_validity_witness :
    (good_response (fun _ _ => true) overflowStatusResponse).status =
      overflowStatusResponse.status % 65536 := by
  have h := status_truncated_before_validity (fun _ _ => true)
    overflowStatusResponse [] rfl rfl
  exact h.1 (by decide)

end ConduitHyper
